import Mathlib

/-!
# Verification of the pngchunk chunk model

Shallow embedding of the repository's chunk core (`src/chunk_type.rs`,
`src/chunk.rs`) and of its PNG container (declared as `mod png;` in
`src/main.rs` but whose source file is absent; modelled from the spec).

Bytes are modelled as `Nat` values (`u8` values are `< 256`), byte buffers as
`List Nat`, and `u32` arithmetic as `Nat` with explicit `% 2^32` where the
Rust code truncates.
-/

/-- Equality of `Except` results is decidable when both components are. -/
instance {ε α : Type} [DecidableEq ε] [DecidableEq α] : DecidableEq (Except ε α) := fun
  | .ok a, .ok b =>
    if h : a = b then .isTrue (by rw [h]) else .isFalse (by simp [h])
  | .ok _, .error _ => .isFalse (by simp)
  | .error _, .ok _ => .isFalse (by simp)
  | .error e, .error f =>
    if h : e = f then .isTrue (by rw [h]) else .isFalse (by simp [h])

namespace PngChunk

/-- Big-endian bytes of a `u32` value, as produced by Rust's
`u32::to_be_bytes` (the value is a `u32`, hence `< 2^32`). -/
def toBeBytes32 (x : Nat) : List Nat :=
  [x / 16777216 % 256, x / 65536 % 256, x / 256 % 256, x % 256]

/-- Big-endian `u32` from a 4-byte buffer, as read by Rust's
`u32::from_be_bytes`. -/
def fromBeBytes (l : List Nat) : Nat :=
  l.foldl (fun acc b => acc * 256 + b) 0

/-- One bit-step of the reflected CRC-32 computation: shift right and
conditionally xor the reflected ISO-HDLC polynomial `0xEDB88320`. -/
def crc32Step (crc : Nat) : Nat :=
  if crc &&& 1 == 1 then (crc >>> 1) ^^^ 0xEDB88320 else crc >>> 1

/-- Fold one input byte into the running CRC-32 state: xor the byte in,
then do eight bit-steps. -/
def crc32UpdateByte (crc b : Nat) : Nat :=
  crc32Step^[8] (crc ^^^ b)

/-- `Chunk::calculate_crc` (src/chunk.rs): CRC-32/ISO-HDLC of a byte
sequence, the algorithm the `crc` crate runs for `CRC_32_ISO_HDLC`
(init `0xFFFFFFFF`, reflected polynomial `0xEDB88320`, reflected input and
output, final xor `0xFFFFFFFF`). -/
def calculateCrc (bytes : List Nat) : Nat :=
  0xFFFFFFFF ^^^ bytes.foldl crc32UpdateByte 0xFFFFFFFF

/-- Errors of the core. The source collapses all errors into boxed strings;
each constructor below stands for one distinct error site of the source:
`chunkTooShort` for "Chunk must contain atleast 12 bytes.",
`typeWrongLength` for "String must be 4 bytes long.",
`typeNotAlphabetic` for "Chunk type can only contain alphabetic ascii",
`crcMismatch got shouldBe` for "CRC invalid: Got .., should be ..",
`notUtf8` for "String is not valid utf-8.",
`internalPanic` for the `panic!` branch of `Chunk::try_from`,
`badSignature` and `truncated` for the container errors of the spec. -/
inductive PngError where
  | chunkTooShort
  | typeWrongLength
  | typeNotAlphabetic
  | crcMismatch (got shouldBe : Nat)
  | notUtf8
  | internalPanic
  | badSignature
  | truncated
  deriving DecidableEq, Repr

/-- `ChunkType` (src/chunk_type.rs): four raw tag bytes. -/
structure ChunkType where
  b0 : Nat
  b1 : Nat
  b2 : Nat
  b3 : Nat
  deriving DecidableEq, Repr

namespace ChunkType

/-- `ChunkType::bytes`: the stored 4-byte tag. -/
def bytes (t : ChunkType) : List Nat := [t.b0, t.b1, t.b2, t.b3]

/-- Rust's `u8::is_ascii_alphabetic`. -/
def isAsciiAlphabetic (b : Nat) : Bool :=
  (65 ≤ b && b ≤ 90) || (97 ≤ b && b ≤ 122)

/-- `ChunkType::get_bit_at`: bit `n` of `byte`, failing for `n ≥ 8`. -/
def getBitAt (byte n : Nat) : Except PngError Bool :=
  if n < 8 then .ok (byte &&& (1 <<< n) != 0) else .error .internalPanic

/-- `ChunkType::is_reserved_bit_valid`: bit 5 of the third byte is clear.
The source unwraps the `get_bit_at` result (`n = 5 < 8` never fails);
the `get!` models that unwrap. -/
def isReservedBitValid (t : ChunkType) : Bool :=
  (getBitAt t.b2 5).toOption.get! == false

/-- `ChunkType::is_valid`: all four bytes ASCII alphabetic and the
reserved bit clear. -/
def isValid (t : ChunkType) : Bool :=
  t.bytes.all isAsciiAlphabetic && t.isReservedBitValid

/-- `ChunkType::from_str` (src/chunk_type.rs). The Rust function takes a
`&str`; here the string is its UTF-8 byte sequence, on which the source
checks byte length 4 and per-byte ASCII alphabeticity. -/
def fromStr (s : List Nat) : Except PngError ChunkType :=
  if s.length ≠ 4 then .error .typeWrongLength
  else
    let chunk : ChunkType := ⟨s.getD 0 0, s.getD 1 0, s.getD 2 0, s.getD 3 0⟩
    if chunk.bytes.all isAsciiAlphabetic then .ok chunk
    else .error .typeNotAlphabetic

end ChunkType

/-- `Chunk` (src/chunk.rs): declared length, type, data, crc. -/
structure Chunk where
  m_length : Nat
  m_type : ChunkType
  m_chunk_data : List Nat
  m_crc : Nat
  deriving DecidableEq, Repr

namespace Chunk

/-- `Chunk::MIN_CHUNK_LENGTH`. -/
def MIN_CHUNK_LENGTH : Nat := 12

/-- `Chunk::new`: length is `data.len() as u32` (truncating cast), crc is
the CRC-32 of type bytes followed by data. -/
def new (chunk_type : ChunkType) (data : List Nat) : Chunk :=
  { m_length := data.length % 4294967296
    m_type := chunk_type
    m_chunk_data := data
    m_crc := calculateCrc (chunk_type.bytes ++ data) }

/-- `Chunk::length` accessor. -/
def length (c : Chunk) : Nat := c.m_length

/-- `Chunk::data` accessor. -/
def data (c : Chunk) : List Nat := c.m_chunk_data

/-- `Chunk::crc` accessor. -/
def crc (c : Chunk) : Nat := c.m_crc

/-- `Chunk::as_bytes`: length (BE, 4) ++ type (4) ++ data ++ crc (BE, 4). -/
def asBytes (c : Chunk) : List Nat :=
  toBeBytes32 c.m_length ++ c.m_type.bytes ++ c.m_chunk_data ++ toBeBytes32 c.m_crc

/-- `Chunk::try_from (&[u8])` (src/chunk.rs). Fails below 12 bytes; reads a
big-endian length and the type bytes; takes everything between the 8-byte
prefix and the final 4 bytes as data (empty at exactly 12 bytes);
recomputes the CRC over type ++ data and compares it with the stored
trailing big-endian word. The source's `panic!` branch (trailing region
not exactly 4 bytes) is modelled as the distinguished error
`internalPanic`. `ChunkType::try_from` never fails in the source, so the
type bytes are taken as-is. -/
def tryFrom (value : List Nat) : Except PngError Chunk :=
  if value.length < MIN_CHUNK_LENGTH then .error .chunkTooShort
  else
    let m_length := fromBeBytes (value.take 4)
    let tb := (value.drop 4).take 4
    let m_type : ChunkType := ⟨tb.getD 0 0, tb.getD 1 0, tb.getD 2 0, tb.getD 3 0⟩
    let m_chunk_data : List Nat :=
      if value.length = MIN_CHUNK_LENGTH then []
      else (value.drop 8).take (value.length - 12)
    let m_crc := calculateCrc (m_type.bytes ++ m_chunk_data)
    let crcRegion := value.drop (8 + m_chunk_data.length)
    if crcRegion.length ≠ 4 then .error .internalPanic
    else
      let crc_to_test := fromBeBytes crcRegion
      if crc_to_test ≠ m_crc then .error (.crcMismatch crc_to_test m_crc)
      else .ok ⟨m_length, m_type, m_chunk_data, m_crc⟩

end Chunk

/-- A continuation byte of a UTF-8 sequence (`10xxxxxx`). -/
def isContByte (b : Nat) : Bool := 0x80 ≤ b && b ≤ 0xBF

/-- Constraint on the second byte of a 3-byte UTF-8 sequence (rules out
overlong encodings for `0xE0` and surrogates for `0xED`). -/
def utf8Valid3 (b0 b1 : Nat) : Bool :=
  if b0 == 0xE0 then 0xA0 ≤ b1 && b1 ≤ 0xBF
  else if b0 == 0xED then 0x80 ≤ b1 && b1 ≤ 0x9F
  else isContByte b1

/-- Constraint on the second byte of a 4-byte UTF-8 sequence (rules out
overlong encodings for `0xF0` and values above `U+10FFFF` for `0xF4`). -/
def utf8Valid4 (b0 b1 : Nat) : Bool :=
  if b0 == 0xF0 then 0x90 ≤ b1 && b1 ≤ 0xBF
  else if b0 == 0xF4 then 0x80 ≤ b1 && b1 ≤ 0x8F
  else isContByte b1

/-- One step of UTF-8 validation: given a leading byte and the remaining
buffer, the decoded scalar value and the rest of the buffer after the
sequence, or `none` when the leading byte or its continuation bytes are
invalid. -/
def utf8Step (b0 : Nat) (rest : List Nat) : Option (Nat × List Nat) :=
  if b0 ≤ 0x7F then some (b0, rest)
  else if 0xC2 ≤ b0 && b0 ≤ 0xDF then
    match rest with
    | b1 :: rest2 =>
      if isContByte b1 then some ((b0 - 0xC0) * 64 + (b1 - 0x80), rest2) else none
    | [] => none
  else if 0xE0 ≤ b0 && b0 ≤ 0xEF then
    match rest with
    | b1 :: b2 :: rest3 =>
      if utf8Valid3 b0 b1 && isContByte b2 then
        some ((b0 - 0xE0) * 4096 + (b1 - 0x80) * 64 + (b2 - 0x80), rest3)
      else none
    | _ => none
  else if 0xF0 ≤ b0 && b0 ≤ 0xF4 then
    match rest with
    | b1 :: b2 :: b3 :: rest4 =>
      if utf8Valid4 b0 b1 && isContByte b2 && isContByte b3 then
        some ((b0 - 0xF0) * 262144 + (b1 - 0x80) * 4096 + (b2 - 0x80) * 64 + (b3 - 0x80), rest4)
      else none
    | _ => none
  else none

/-- UTF-8 validation and decoding of a byte sequence into scalar values,
as performed by Rust's `String::from_utf8` (used by
`Chunk::data_as_string`): `none` on invalid input, the code point list
otherwise. -/
def utf8Decode (l : List Nat) : Option (List Nat) :=
  match l with
  | [] => some []
  | b0 :: rest =>
    match h : utf8Step b0 rest with
    | none => none
    | some (cp, rest2) => (utf8Decode rest2).map (fun cs => cp :: cs)
termination_by l.length
decreasing_by
  simp only [List.length_cons]
  have hle : rest2.length ≤ rest.length := by
    unfold utf8Step at h
    repeat' split at h
    all_goals
      first
        | (rw [Option.some.injEq, Prod.mk.injEq] at h
           obtain ⟨h1, h2⟩ := h
           subst h2
           try simp only [List.length_cons]
           omega)
        | exact absurd h (by simp)
  omega

/-- `Chunk::data_as_string` (src/chunk.rs): the chunk data decoded as
UTF-8 text, failing when the data is not valid UTF-8. The decoded scalar
values are turned into a Lean `String` (they are valid code points by
construction of `utf8Decode`). -/
def Chunk.dataAsString (c : Chunk) : Except PngError String :=
  match utf8Decode c.m_chunk_data with
  | some cps => .ok (String.mk (cps.map Char.ofNat))
  | none => .error .notUtf8

/-- The fixed 8-byte PNG signature. -/
def pngSignature : List Nat := [137, 80, 78, 71, 13, 10, 26, 10]

/-- Modelled from the spec: the container type `Png`. The repository
declares `mod png;` in src/main.rs and uses `Png` in src/commands.rs, but
src/png.rs is not among the provided sources; the container is therefore
modelled from spec §3 and §4.3: a fixed implicit signature plus an
ordered sequence of chunks. -/
structure Png where
  chunks : List Chunk
  deriving DecidableEq, Repr

namespace Png

/-- Modelled from the spec: `Png::from_chunks` — always succeeds, the
signature is implicit. -/
def fromChunks (cs : List Chunk) : Png := ⟨cs⟩

/-- Modelled from the spec: `Png::as_bytes` — the signature followed by
each chunk's byte serialization, concatenated in sequence order. -/
def asBytes (p : Png) : List Nat :=
  pngSignature ++ (p.chunks.map Chunk.asBytes).flatten

/-- Modelled from the spec: the container's chunk walk (§4.3). Reads the
declared 4-byte big-endian length of the next chunk, slices exactly
`12 + declared_length` bytes (the declared length is authoritative here,
unlike the permissive single-chunk parse), delegates to `Chunk.tryFrom`,
advances past the slice, and stops when no bytes remain; insufficient
bytes fail with `truncated`. The `fuel` argument bounds the number of
iterations of the source's loop; it is always called with at least the
length of the input, which the loop (consuming ≥ 12 bytes per step) can
never exhaust. -/
def chunksFromBytes : Nat → List Nat → Except PngError (List Chunk)
  | _, [] => .ok []
  | 0, _ :: _ => .error .truncated
  | fuel + 1, b0 :: rest =>
    let bytes := b0 :: rest
    if bytes.length < 12 then .error .truncated
    else
      let declared := fromBeBytes (bytes.take 4)
      if bytes.length < 12 + declared then .error .truncated
      else
        match Chunk.tryFrom (bytes.take (12 + declared)) with
        | .error e => .error e
        | .ok c =>
          match chunksFromBytes fuel (bytes.drop (12 + declared)) with
          | .error e => .error e
          | .ok cs => .ok (c :: cs)

/-- Modelled from the spec: `Png::try_from` (§4.3) — fails with
`badSignature` unless the first 8 bytes match the fixed signature, then
walks the remaining bytes chunk by chunk. -/
def tryFrom (bytes : List Nat) : Except PngError Png :=
  if bytes.take 8 ≠ pngSignature then .error .badSignature
  else (chunksFromBytes bytes.length (bytes.drop 8)).map Png.mk

end Png

/-- A chunk whose fields are mutually consistent, as produced by
`Chunk.new` from byte-valued data of `u32`-representable length: the
declared length is the data length, all stored bytes are byte-valued, and
the crc field is the CRC of type bytes followed by data. -/
def ChunkConsistent (c : Chunk) : Prop :=
  c.m_length = c.m_chunk_data.length
  ∧ c.m_chunk_data.length < 4294967296
  ∧ (∀ b ∈ c.m_type.bytes, b < 256)
  ∧ (∀ b ∈ c.m_chunk_data, b < 256)
  ∧ c.m_crc = calculateCrc (c.m_type.bytes ++ c.m_chunk_data)

instance (c : Chunk) : Decidable (ChunkConsistent c) := by
  unfold ChunkConsistent
  infer_instance

/-- The 42 data bytes of the repository's test vector are the ASCII bytes
of this message. -/
def secretMessage : String := "This is where your secret message will be!"

/-- The message of the test vector as a byte sequence. -/
def secretMessageBytes : List Nat := secretMessage.data.map Char.toNat

/-! ## Basic lemmas about byte serialization and the CRC -/

theorem toBeBytes32_length (x : Nat) : (toBeBytes32 x).length = 4 := rfl

theorem toBeBytes32_bytes_lt (x : Nat) : ∀ b ∈ toBeBytes32 x, b < 256 := by
  simp only [toBeBytes32, List.mem_cons, List.not_mem_nil, or_false]
  rintro b (rfl | rfl | rfl | rfl) <;> omega

theorem fromBeBytes_toBeBytes32 (x : Nat) (h : x < 4294967296) :
    fromBeBytes (toBeBytes32 x) = x := by
  simp only [toBeBytes32, fromBeBytes, List.foldl_cons, List.foldl_nil]
  omega

theorem crc32Step_lt {c : Nat} (_h : c < 2 ^ 32) : crc32Step c < 2 ^ 32 := by
  unfold crc32Step
  have hs : c >>> 1 < 2 ^ 32 := by
    rw [Nat.shiftRight_eq_div_pow]
    omega
  split
  · exact Nat.xor_lt_two_pow hs (by norm_num)
  · exact hs

theorem crc32UpdateByte_lt {c b : Nat} (hc : c < 2 ^ 32) (hb : b < 256) :
    crc32UpdateByte c b < 2 ^ 32 := by
  have h0 : c ^^^ b < 2 ^ 32 := Nat.xor_lt_two_pow hc (by omega)
  unfold crc32UpdateByte
  simp only [Nat.iterate]
  exact crc32Step_lt (crc32Step_lt (crc32Step_lt (crc32Step_lt (crc32Step_lt
    (crc32Step_lt (crc32Step_lt (crc32Step_lt h0)))))))

theorem foldl_crc32UpdateByte_lt {l : List Nat} :
    ∀ {acc : Nat}, acc < 2 ^ 32 → (∀ b ∈ l, b < 256) →
      l.foldl crc32UpdateByte acc < 2 ^ 32 := by
  induction l with
  | nil => intro acc hacc _; simpa using hacc
  | cons x xs ih =>
    intro acc hacc hb
    rw [List.foldl_cons]
    exact ih (crc32UpdateByte_lt hacc (hb x (by simp))) fun b hbm => hb b (by simp [hbm])

theorem calculateCrc_lt {l : List Nat} (h : ∀ b ∈ l, b < 256) :
    calculateCrc l < 4294967296 := by
  have : calculateCrc l < 2 ^ 32 := by
    unfold calculateCrc
    exact Nat.xor_lt_two_pow (by norm_num) (foldl_crc32UpdateByte_lt (by norm_num) h)
  omega

/-! ## Lemmas about `Chunk.tryFrom` -/

theorem ChunkType.bytes_length (t : ChunkType) : t.bytes.length = 4 := rfl

theorem Chunk.asBytes_length (c : Chunk) :
    c.asBytes.length = 12 + c.m_chunk_data.length := by
  simp only [Chunk.asBytes, List.length_append, toBeBytes32_length, ChunkType.bytes_length]
  omega

/-- A list of length 4 is the list of its four indexed elements. -/
theorem list_eq_four {l : List Nat} (h : l.length = 4) :
    l = [l.getD 0 0, l.getD 1 0, l.getD 2 0, l.getD 3 0] := by
  match l, h with
  | [a, b, c, d], _ => rfl

/-- Unfolding of `Chunk.tryFrom` once the minimum-length guard passes. -/
theorem Chunk.tryFrom_of_ge (v : List Nat) (h : ¬ v.length < 12) :
    Chunk.tryFrom v =
      (let m_length := fromBeBytes (v.take 4)
       let tb := (v.drop 4).take 4
       let m_type : ChunkType := ⟨tb.getD 0 0, tb.getD 1 0, tb.getD 2 0, tb.getD 3 0⟩
       let m_chunk_data : List Nat :=
         if v.length = 12 then []
         else (v.drop 8).take (v.length - 12)
       let m_crc := calculateCrc (m_type.bytes ++ m_chunk_data)
       let crcRegion := v.drop (8 + m_chunk_data.length)
       if crcRegion.length ≠ 4 then .error .internalPanic
       else
         let crc_to_test := fromBeBytes crcRegion
         if crc_to_test ≠ m_crc then .error (.crcMismatch crc_to_test m_crc)
         else .ok ⟨m_length, m_type, m_chunk_data, m_crc⟩) := by
  unfold Chunk.tryFrom
  rw [if_neg (by simpa [Chunk.MIN_CHUNK_LENGTH] using h)]
  rfl

/-- Under the minimum-length guard, the data region of `Chunk.tryFrom` is
`v[8 .. v.length - 4]` in both branches of the emptiness test. -/
theorem Chunk.dataRegion_eq (v : List Nat) (h : ¬ v.length < 12) :
    (if v.length = 12 then ([] : List Nat) else (v.drop 8).take (v.length - 12)) =
      (v.drop 8).take (v.length - 12) := by
  split
  · rename_i h12
    have : v.length - 12 = 0 := by omega
    simp [this]
  · rfl

/-- The trailing region checked against the CRC is always exactly 4 bytes
long once the minimum-length guard passes. -/
theorem Chunk.crcRegion_length (v : List Nat) (h : ¬ v.length < 12) :
    (v.drop (8 + ((v.drop 8).take (v.length - 12)).length)).length = 4 := by
  simp only [List.length_take, List.length_drop, List.length_drop]
  omega

/-- Any chunk whose `crc` field is the CRC of its type and data bytes
(and whose numeric fields fit their Rust types) is recovered exactly by
parsing its own serialization. The declared length field need not match
the data length: the permissive parser reads it back verbatim. -/
theorem Chunk.tryFrom_asBytes (c : Chunk)
    (hlen : c.m_length < 4294967296)
    (htb : ∀ b ∈ c.m_type.bytes, b < 256)
    (hdb : ∀ b ∈ c.m_chunk_data, b < 256)
    (hcrc : c.m_crc = calculateCrc (c.m_type.bytes ++ c.m_chunk_data)) :
    Chunk.tryFrom c.asBytes = .ok c := by
  have hcrclt : c.m_crc < 4294967296 := by
    rw [hcrc]
    refine calculateCrc_lt ?_
    intro b hb
    rcases List.mem_append.1 hb with h | h
    · exact htb b h
    · exact hdb b h
  have hLen : c.asBytes.length = 12 + c.m_chunk_data.length := Chunk.asBytes_length c
  have hguard : ¬ c.asBytes.length < 12 := by omega
  rw [Chunk.tryFrom_of_ge _ hguard]
  simp only
  have htake4 : c.asBytes.take 4 = toBeBytes32 c.m_length :=
    List.take_left' (toBeBytes32_length _)
  have hdrop4 : c.asBytes.drop 4 =
      c.m_type.bytes ++ c.m_chunk_data ++ toBeBytes32 c.m_crc := by
    unfold Chunk.asBytes
    exact List.drop_left' (toBeBytes32_length _)
  have htb4 : (c.asBytes.drop 4).take 4 = c.m_type.bytes := by
    rw [hdrop4, List.append_assoc]
    exact List.take_left' (ChunkType.bytes_length _)
  have hdrop8 : c.asBytes.drop 8 = c.m_chunk_data ++ toBeBytes32 c.m_crc := by
    have h48 : c.asBytes.drop 8 = (c.asBytes.drop 4).drop 4 := by rw [List.drop_drop]
    rw [h48, hdrop4, List.append_assoc]
    exact List.drop_left' (ChunkType.bytes_length _)
  have hdata : (if c.asBytes.length = 12 then ([] : List Nat)
      else (c.asBytes.drop 8).take (c.asBytes.length - 12)) = c.m_chunk_data := by
    rw [Chunk.dataRegion_eq _ hguard, hdrop8, hLen]
    have : 12 + c.m_chunk_data.length - 12 = c.m_chunk_data.length := by omega
    rw [this]
    exact List.take_left' rfl
  have hregion : c.asBytes.drop (8 + c.m_chunk_data.length) = toBeBytes32 c.m_crc := by
    have h8n : c.asBytes.drop (8 + c.m_chunk_data.length) =
        (c.asBytes.drop 8).drop c.m_chunk_data.length := by rw [List.drop_drop]
    rw [h8n, hdrop8]
    exact List.drop_left' rfl
  rw [htake4, htb4, hdata]
  have htype : (⟨c.m_type.bytes.getD 0 0, c.m_type.bytes.getD 1 0,
      c.m_type.bytes.getD 2 0, c.m_type.bytes.getD 3 0⟩ : ChunkType) = c.m_type := rfl
  rw [htype, hregion]
  rw [toBeBytes32_length]
  rw [if_neg (by omega : ¬ (4 : Nat) ≠ 4)]
  rw [fromBeBytes_toBeBytes32 _ hcrclt, fromBeBytes_toBeBytes32 _ hlen]
  rw [if_neg (by rw [hcrc]; omega : ¬ c.m_crc ≠ calculateCrc (c.m_type.bytes ++ c.m_chunk_data))]
  rw [← hcrc]

/-- The result of `Chunk.tryFrom` depends on the first four bytes only
through the stored `m_length` field: two inputs of equal length agreeing
past index 4 succeed or fail identically, with equal type, data and crc. -/
theorem Chunk.tryFrom_congr (v w : List Nat)
    (hl : v.length = w.length) (hd : v.drop 4 = w.drop 4) :
    ((Chunk.tryFrom v).isOk = (Chunk.tryFrom w).isOk)
    ∧ (∀ c c', Chunk.tryFrom v = .ok c → Chunk.tryFrom w = .ok c' →
        c.m_type = c'.m_type ∧ c.m_chunk_data = c'.m_chunk_data ∧ c.m_crc = c'.m_crc) := by
  have hdrop8 : v.drop 8 = w.drop 8 := by
    have h1 : v.drop 8 = (v.drop 4).drop 4 := by rw [List.drop_drop]
    have h2 : w.drop 8 = (w.drop 4).drop 4 := by rw [List.drop_drop]
    rw [h1, h2, hd]
  by_cases hguard : v.length < 12
  · have hg2 : w.length < 12 := by omega
    unfold Chunk.tryFrom
    rw [if_pos (by simpa [Chunk.MIN_CHUNK_LENGTH] using hguard),
      if_pos (by simpa [Chunk.MIN_CHUNK_LENGTH] using hg2)]
    exact ⟨rfl, by intro c c' h1 _; exact absurd h1 (by simp)⟩
  · have hg2 : ¬ w.length < 12 := by omega
    rw [Chunk.tryFrom_of_ge v hguard, Chunk.tryFrom_of_ge w hg2]
    simp only
    rw [Chunk.dataRegion_eq v hguard, Chunk.dataRegion_eq w hg2]
    have hregion : ∀ n : Nat, w.drop (8 + n) = v.drop (8 + n) := by
      intro n
      have h1 : v.drop (8 + n) = (v.drop 8).drop n := by rw [List.drop_drop, Nat.add_comm]
      have h2 : w.drop (8 + n) = (w.drop 8).drop n := by rw [List.drop_drop, Nat.add_comm]
      rw [h1, h2, hdrop8]
    rw [← hl, ← hd, ← hdrop8, hregion]
    split
    · exact ⟨rfl, by intro c c' h1 _; exact absurd h1 (by simp)⟩
    · split
      · exact ⟨rfl, by intro c c' h1 _; exact absurd h1 (by simp)⟩
      · refine ⟨rfl, ?_⟩
        intro c c' h1 h2
        rw [Except.ok.injEq] at h1 h2
        rw [← h1, ← h2]
        exact ⟨rfl, rfl, rfl⟩

/-! ## Lemmas about the container walk -/

theorem Chunk.asBytes_assoc (c : Chunk) :
    c.asBytes = toBeBytes32 c.m_length ++
      (c.m_type.bytes ++ (c.m_chunk_data ++ toBeBytes32 c.m_crc)) := by
  simp [Chunk.asBytes, List.append_assoc]

theorem Png.chunksFromBytes_nil (fuel : Nat) : Png.chunksFromBytes fuel [] = .ok [] := by
  cases fuel <;> rfl

/-- One unfolding step of the container walk on a non-empty buffer. -/
theorem Png.chunksFromBytes_cons (fuel : Nat) (bytes : List Nat) (h : bytes ≠ []) :
    Png.chunksFromBytes (fuel + 1) bytes =
      (if bytes.length < 12 then .error .truncated
       else
         let declared := fromBeBytes (bytes.take 4)
         if bytes.length < 12 + declared then .error .truncated
         else
           match Chunk.tryFrom (bytes.take (12 + declared)) with
           | .error e => .error e
           | .ok c =>
             match Png.chunksFromBytes fuel (bytes.drop (12 + declared)) with
             | .error e => .error e
             | .ok cs => .ok (c :: cs)) := by
  cases bytes with
  | nil => exact absurd rfl h
  | cons x xs => rfl

/-- The container walk, given enough fuel, recovers a consistent chunk
sequence from its concatenated serialization. -/
theorem Png.chunksFromBytes_flatten (cs : List Chunk) (hwf : ∀ c ∈ cs, ChunkConsistent c) :
    ∀ fuel, ((cs.map Chunk.asBytes).flatten).length ≤ fuel →
      Png.chunksFromBytes fuel ((cs.map Chunk.asBytes).flatten) = .ok cs := by
  induction cs with
  | nil =>
    intro fuel _
    simpa using Png.chunksFromBytes_nil fuel
  | cons c cs ih =>
    intro fuel hfuel
    obtain ⟨hc1, hc2, hc3, hc4, hc5⟩ := hwf c (List.mem_cons_self c cs)
    have hwf' : ∀ c' ∈ cs, ChunkConsistent c' := fun c' hm => hwf c' (List.mem_cons_of_mem c hm)
    have hCLen : c.asBytes.length = 12 + c.m_chunk_data.length := Chunk.asBytes_length c
    have hmap : ((c :: cs).map Chunk.asBytes).flatten =
        c.asBytes ++ (cs.map Chunk.asBytes).flatten := by
      simp
    rw [hmap] at hfuel ⊢
    have htotal : (c.asBytes ++ (cs.map Chunk.asBytes).flatten).length =
        12 + c.m_chunk_data.length + ((cs.map Chunk.asBytes).flatten).length := by
      rw [List.length_append, hCLen]
    obtain ⟨f, rfl⟩ : ∃ f, fuel = f + 1 := ⟨fuel - 1, by omega⟩
    have hne : c.asBytes ++ (cs.map Chunk.asBytes).flatten ≠ [] := by
      intro hnil
      have := congrArg List.length hnil
      rw [htotal] at this
      simp at this
    rw [Png.chunksFromBytes_cons f _ hne]
    rw [if_neg (by omega : ¬ (c.asBytes ++ (cs.map Chunk.asBytes).flatten).length < 12)]
    simp only
    have htake4 : (c.asBytes ++ (cs.map Chunk.asBytes).flatten).take 4 =
        toBeBytes32 c.m_length := by
      rw [Chunk.asBytes_assoc, List.append_assoc]
      exact List.take_left' (toBeBytes32_length _)
    rw [htake4, fromBeBytes_toBeBytes32 c.m_length (by omega)]
    rw [if_neg (by rw [htotal]; omega :
      ¬ (c.asBytes ++ (cs.map Chunk.asBytes).flatten).length < 12 + c.m_length)]
    have htakeC : (c.asBytes ++ (cs.map Chunk.asBytes).flatten).take (12 + c.m_length) =
        c.asBytes := List.take_left' (by omega)
    have hdropC : (c.asBytes ++ (cs.map Chunk.asBytes).flatten).drop (12 + c.m_length) =
        (cs.map Chunk.asBytes).flatten := List.drop_left' (by omega)
    rw [htakeC, hdropC]
    rw [Chunk.tryFrom_asBytes c (by omega) hc3 hc4 hc5]
    rw [ih hwf' f (by omega)]

/-! ## Claims -/

/-- C1: for every `ChunkType` `t` and byte sequence `d` whose length is
representable as a `u32`, `Chunk::parse (Chunk::new t d).to_bytes()`
succeeds and returns the chunk `Chunk::new t d` itself (equal length,
type bytes, data and crc). The byte-valuedness hypotheses express the
Rust types `[u8; 4]` and `Vec<u8>` of the inputs. -/
theorem c1_new_round_trip (t : ChunkType) (d : List Nat)
    (ht : ∀ b ∈ t.bytes, b < 256) (hd : ∀ b ∈ d, b < 256)
    (hlen : d.length < 4294967296) :
    Chunk.tryFrom (Chunk.new t d).asBytes = .ok (Chunk.new t d) := by
  refine Chunk.tryFrom_asBytes (Chunk.new t d) ?_ ht hd rfl
  show d.length % 4294967296 < 4294967296
  exact Nat.mod_lt _ (by norm_num)

set_option maxRecDepth 100000 in
/-- C1 witness: the round-trip at the concrete type `"RuSt"` and data
`[1, 2, 3]`. -/
theorem c1_new_round_trip_witness :
    Chunk.tryFrom (Chunk.new ⟨82, 117, 83, 116⟩ [1, 2, 3]).asBytes =
      .ok (Chunk.new ⟨82, 117, 83, 116⟩ [1, 2, 3]) :=
  c1_new_round_trip ⟨82, 117, 83, 116⟩ [1, 2, 3] (by decide) (by decide) (by decide)

/-- C2 (amended): container serialization is the signature followed by the
chunks' serializations in order, and re-parsing round-trips for every
container whose chunks are consistent (declared length equal to the data
length, as `Chunk::new` produces); a chunk whose declared length field
differs from its data length breaks the round-trip, because the
container walk trusts the declared length (see the counterexample). -/
theorem c2_container_round_trip (cs : List Chunk) (hwf : ∀ c ∈ cs, ChunkConsistent c) :
    (Png.fromChunks cs).asBytes = pngSignature ++ (cs.map Chunk.asBytes).flatten
    ∧ Png.tryFrom (Png.fromChunks cs).asBytes = .ok (Png.fromChunks cs) := by
  refine ⟨rfl, ?_⟩
  unfold Png.tryFrom
  have htake : ((Png.fromChunks cs).asBytes).take 8 = pngSignature :=
    List.take_left' rfl
  rw [if_neg (by rw [htake]; exact fun hh => hh rfl)]
  have hdrop : ((Png.fromChunks cs).asBytes).drop 8 = (cs.map Chunk.asBytes).flatten :=
    List.drop_left' rfl
  rw [hdrop]
  have hfuel : ((cs.map Chunk.asBytes).flatten).length ≤ ((Png.fromChunks cs).asBytes).length := by
    have hsplit : ((Png.fromChunks cs).asBytes).length =
        pngSignature.length + ((cs.map Chunk.asBytes).flatten).length := by
      rw [show (Png.fromChunks cs).asBytes =
        pngSignature ++ (cs.map Chunk.asBytes).flatten from rfl]
      exact List.length_append _ _
    omega
  rw [Png.chunksFromBytes_flatten cs hwf _ hfuel]
  rfl

set_option maxRecDepth 100000 in
/-- C2 witness: the amended round-trip at a one-chunk container built by
`Chunk::new` from type `"RuSt"` and data `[1, 2, 3]`. -/
theorem c2_container_round_trip_witness :
    (Png.fromChunks [Chunk.new ⟨82, 117, 83, 116⟩ [1, 2, 3]]).asBytes =
      pngSignature ++ ([Chunk.new ⟨82, 117, 83, 116⟩ [1, 2, 3]].map Chunk.asBytes).flatten
    ∧ Png.tryFrom (Png.fromChunks [Chunk.new ⟨82, 117, 83, 116⟩ [1, 2, 3]]).asBytes =
      .ok (Png.fromChunks [Chunk.new ⟨82, 117, 83, 116⟩ [1, 2, 3]]) :=
  c2_container_round_trip [Chunk.new ⟨82, 117, 83, 116⟩ [1, 2, 3]] (by decide)

set_option maxRecDepth 100000 in
/-- C2 counterexample: a chunk with declared length 0 but one data byte
(obtainable from the permissive single-chunk parser, first conjunct)
breaks the container round-trip: the container walk slices only the
declared 12 bytes, so the stored CRC word is misread and parsing the
serialized container fails instead of returning the container. -/
theorem c2_container_round_trip_counterexample :
    Chunk.tryFrom ([0, 0, 0, 0] ++ [82, 117, 83, 116] ++ [65] ++ toBeBytes32 4234307077) =
      .ok ⟨0, ⟨82, 117, 83, 116⟩, [65], 4234307077⟩
    ∧ Png.tryFrom (Png.fromChunks [⟨0, ⟨82, 117, 83, 116⟩, [65], 4234307077⟩]).asBytes =
      .error (.crcMismatch 1107059302 3565422908) := by
  constructor
  · decide
  · decide

/-- C9: for every input of length at least 12, the trailing region that
`Chunk::try_from` checks against the CRC is exactly 4 bytes, so the
internal-consistency `panic!` branch is unreachable. -/
theorem c9_panic_unreachable (v : List Nat) (h : 12 ≤ v.length) :
    Chunk.tryFrom v ≠ .error .internalPanic := by
  have hguard : ¬ v.length < 12 := by omega
  rw [Chunk.tryFrom_of_ge v hguard]
  simp only
  rw [Chunk.dataRegion_eq v hguard, Chunk.crcRegion_length v hguard]
  rw [if_neg (by omega : ¬ (4 : Nat) ≠ 4)]
  split
  · simp
  · simp

/-- C9 witness: the panic branch is not taken on a concrete 12-byte
input. -/
theorem c9_panic_unreachable_witness :
    Chunk.tryFrom [0, 0, 0, 0, 82, 117, 83, 116, 0, 0, 0, 0] ≠ .error .internalPanic :=
  c9_panic_unreachable [0, 0, 0, 0, 82, 117, 83, 116, 0, 0, 0, 0] (by decide)

/-- C10: a successfully parsed chunk stores the wire value of the 4-byte
big-endian length field, not the actual data byte count `n - 12`; when the
two differ, the parsed chunk has `length() ≠ data().len()`, and parsing
neither rejects nor corrects this. -/
theorem c10_length_field (v : List Nat) (c : Chunk) (h : 12 ≤ v.length)
    (hok : Chunk.tryFrom v = .ok c) :
    c.m_length = fromBeBytes (v.take 4)
    ∧ c.m_chunk_data.length = v.length - 12
    ∧ (fromBeBytes (v.take 4) ≠ v.length - 12 → c.m_length ≠ c.m_chunk_data.length) := by
  have hguard : ¬ v.length < 12 := by omega
  rw [Chunk.tryFrom_of_ge v hguard] at hok
  simp only at hok
  rw [Chunk.dataRegion_eq v hguard, Chunk.crcRegion_length v hguard] at hok
  rw [if_neg (by omega : ¬ (4 : Nat) ≠ 4)] at hok
  split at hok
  · exact absurd hok (by simp)
  · rw [Except.ok.injEq] at hok
    have hdlen : (((v.drop 8).take (v.length - 12))).length = v.length - 12 := by
      rw [List.length_take, List.length_drop]
      omega
    refine ⟨?_, ?_, ?_⟩
    · rw [← hok]
    · rw [← hok]
      exact hdlen
    · intro hne
      rw [← hok]
      show fromBeBytes (v.take 4) ≠ _
      rw [hdlen]
      exact hne

set_option maxRecDepth 100000 in
/-- C10 witness: a 14-byte input with declared length 7 but 2 actual data
bytes parses successfully into a chunk with `length() = 7` and
`data().len() = 2`. -/
theorem c10_length_field_witness :
    (⟨7, ⟨82, 117, 83, 116⟩, [65, 66], 977689048⟩ : Chunk).m_length =
      fromBeBytes (([0, 0, 0, 7] ++ [82, 117, 83, 116] ++ [65, 66] ++ toBeBytes32 977689048).take 4)
    ∧ (⟨7, ⟨82, 117, 83, 116⟩, [65, 66], 977689048⟩ : Chunk).m_chunk_data.length =
      ([0, 0, 0, 7] ++ [82, 117, 83, 116] ++ [65, 66] ++ toBeBytes32 977689048).length - 12
    ∧ (fromBeBytes (([0, 0, 0, 7] ++ [82, 117, 83, 116] ++ [65, 66] ++ toBeBytes32 977689048).take 4) ≠
         ([0, 0, 0, 7] ++ [82, 117, 83, 116] ++ [65, 66] ++ toBeBytes32 977689048).length - 12 →
       (⟨7, ⟨82, 117, 83, 116⟩, [65, 66], 977689048⟩ : Chunk).m_length ≠
         (⟨7, ⟨82, 117, 83, 116⟩, [65, 66], 977689048⟩ : Chunk).m_chunk_data.length) :=
  c10_length_field
    ([0, 0, 0, 7] ++ [82, 117, 83, 116] ++ [65, 66] ++ toBeBytes32 977689048)
    ⟨7, ⟨82, 117, 83, 116⟩, [65, 66], 977689048⟩ (by decide) (by decide)

/-- C3: for every input of length at least 12, `Chunk::try_from` fails
with a checksum-mismatch error exactly when the trailing 4 bytes, read as
a big-endian u32, differ from the CRC recomputed over the type bytes
concatenated with the data bytes, and succeeds exactly when they agree;
and the corrupted concrete vector with stored CRC 2882656333 instead of
2882656334 fails with that mismatch. -/
theorem c3_checksum_enforcement :
    (∀ v : List Nat, 12 ≤ v.length →
      (((∃ g s, Chunk.tryFrom v = .error (.crcMismatch g s)) ↔
          fromBeBytes (v.drop (v.length - 4)) ≠
            calculateCrc ((v.drop 4).take 4 ++ (v.drop 8).take (v.length - 12)))
       ∧ ((∃ c, Chunk.tryFrom v = .ok c) ↔
          fromBeBytes (v.drop (v.length - 4)) =
            calculateCrc ((v.drop 4).take 4 ++ (v.drop 8).take (v.length - 12)))))
    ∧ Chunk.tryFrom
        ([0, 0, 0, 42] ++ [82, 117, 83, 116] ++ secretMessageBytes ++ toBeBytes32 2882656333) =
      .error (.crcMismatch 2882656333 2882656334) := by
  constructor
  · intro v h
    have hguard : ¬ v.length < 12 := by omega
    rw [Chunk.tryFrom_of_ge v hguard]
    simp only
    rw [Chunk.dataRegion_eq v hguard, Chunk.crcRegion_length v hguard]
    rw [if_neg (by omega : ¬ (4 : Nat) ≠ 4)]
    have htb4 : ((v.drop 4).take 4).length = 4 := by
      rw [List.length_take, List.length_drop]
      omega
    have htype : (⟨((v.drop 4).take 4).getD 0 0, ((v.drop 4).take 4).getD 1 0,
        ((v.drop 4).take 4).getD 2 0, ((v.drop 4).take 4).getD 3 0⟩ : ChunkType).bytes =
        (v.drop 4).take 4 := (list_eq_four htb4).symm
    rw [htype]
    have hregion : 8 + ((v.drop 8).take (v.length - 12)).length = v.length - 4 := by
      rw [List.length_take, List.length_drop]
      omega
    rw [hregion]
    split
    · rename_i hne
      constructor
      · exact ⟨fun _ => hne, fun _ => ⟨_, _, rfl⟩⟩
      · constructor
        · rintro ⟨c, hc⟩
          exact absurd hc (by simp)
        · intro heq
          exact absurd heq hne
    · rename_i hne
      have heq := not_ne_iff.mp hne
      constructor
      · constructor
        · rintro ⟨g, s, hc⟩
          exact absurd hc (by simp)
        · intro hco
          exact absurd heq hco
      · exact ⟨fun _ => heq, fun _ => ⟨_, rfl⟩⟩
  · simp [Chunk.tryFrom, Chunk.MIN_CHUNK_LENGTH, fromBeBytes, toBeBytes32, calculateCrc,
      crc32UpdateByte, crc32Step, Nat.iterate, ChunkType.bytes, secretMessageBytes,
      secretMessage]

/-- C3 witness: the characterization applied at a concrete 12-byte input
whose stored CRC word is zero. -/
theorem c3_checksum_enforcement_witness :
    ((∃ g s, Chunk.tryFrom [0, 0, 0, 0, 82, 117, 83, 116, 0, 0, 0, 0] =
        .error (.crcMismatch g s)) ↔
      fromBeBytes (([0, 0, 0, 0, 82, 117, 83, 116, 0, 0, 0, 0] : List Nat).drop
          (([0, 0, 0, 0, 82, 117, 83, 116, 0, 0, 0, 0] : List Nat).length - 4)) ≠
        calculateCrc ((([0, 0, 0, 0, 82, 117, 83, 116, 0, 0, 0, 0] : List Nat).drop 4).take 4 ++
          (([0, 0, 0, 0, 82, 117, 83, 116, 0, 0, 0, 0] : List Nat).drop 8).take
            (([0, 0, 0, 0, 82, 117, 83, 116, 0, 0, 0, 0] : List Nat).length - 12)))
    ∧ ((∃ c, Chunk.tryFrom [0, 0, 0, 0, 82, 117, 83, 116, 0, 0, 0, 0] = .ok c) ↔
      fromBeBytes (([0, 0, 0, 0, 82, 117, 83, 116, 0, 0, 0, 0] : List Nat).drop
          (([0, 0, 0, 0, 82, 117, 83, 116, 0, 0, 0, 0] : List Nat).length - 4)) =
        calculateCrc ((([0, 0, 0, 0, 82, 117, 83, 116, 0, 0, 0, 0] : List Nat).drop 4).take 4 ++
          (([0, 0, 0, 0, 82, 117, 83, 116, 0, 0, 0, 0] : List Nat).drop 8).take
            (([0, 0, 0, 0, 82, 117, 83, 116, 0, 0, 0, 0] : List Nat).length - 12))) :=
  c3_checksum_enforcement.1 [0, 0, 0, 0, 82, 117, 83, 116, 0, 0, 0, 0] (by decide)

/-- C4: for every accepted input of length at least 12, the data is
exactly the bytes between the 8-byte prefix and the final 4 bytes; and
the 4-byte length field influences neither success nor the parsed type,
data or crc. -/
theorem c4_data_boundary :
    (∀ (v : List Nat) (c : Chunk), 12 ≤ v.length → Chunk.tryFrom v = .ok c →
        c.m_chunk_data = (v.drop 8).take (v.length - 12))
    ∧ (∀ a b rest : List Nat, a.length = 4 → b.length = 4 →
        ((Chunk.tryFrom (a ++ rest)).isOk = (Chunk.tryFrom (b ++ rest)).isOk
         ∧ ∀ c c', Chunk.tryFrom (a ++ rest) = .ok c → Chunk.tryFrom (b ++ rest) = .ok c' →
             c.m_type = c'.m_type ∧ c.m_chunk_data = c'.m_chunk_data ∧ c.m_crc = c'.m_crc)) := by
  constructor
  · intro v c h hok
    have hguard : ¬ v.length < 12 := by omega
    rw [Chunk.tryFrom_of_ge v hguard] at hok
    simp only at hok
    rw [Chunk.dataRegion_eq v hguard, Chunk.crcRegion_length v hguard] at hok
    rw [if_neg (by omega : ¬ (4 : Nat) ≠ 4)] at hok
    split at hok
    · exact absurd hok (by simp)
    · rw [Except.ok.injEq] at hok
      rw [← hok]
  · intro a b rest ha hb
    have hl : (a ++ rest).length = (b ++ rest).length := by
      rw [List.length_append, List.length_append, ha, hb]
    have hd : (a ++ rest).drop 4 = (b ++ rest).drop 4 := by
      rw [List.drop_left' ha, List.drop_left' hb]
    exact Chunk.tryFrom_congr _ _ hl hd

set_option maxRecDepth 100000 in
/-- C4 witness: the length-field irrelevance applied at two concrete
prefixes over the same 8-byte remainder. -/
theorem c4_data_boundary_witness :
    ((Chunk.tryFrom ([0, 0, 0, 0] ++ [82, 117, 83, 116, 0, 0, 0, 0])).isOk =
      (Chunk.tryFrom ([9, 9, 9, 9] ++ [82, 117, 83, 116, 0, 0, 0, 0])).isOk
     ∧ ∀ c c', Chunk.tryFrom ([0, 0, 0, 0] ++ [82, 117, 83, 116, 0, 0, 0, 0]) = .ok c →
         Chunk.tryFrom ([9, 9, 9, 9] ++ [82, 117, 83, 116, 0, 0, 0, 0]) = .ok c' →
         c.m_type = c'.m_type ∧ c.m_chunk_data = c'.m_chunk_data ∧ c.m_crc = c'.m_crc) :=
  c4_data_boundary.2 [0, 0, 0, 0] [9, 9, 9, 9] [82, 117, 83, 116, 0, 0, 0, 0]
    (by decide) (by decide)

/-- C5: both construction paths establish the CRC invariant: `Chunk::new`
stores the CRC of type bytes followed by data (and the data length cast to
u32), and every chunk accepted by `Chunk::try_from` has its crc field equal
to the CRC recomputed over its own type and data bytes. -/
theorem c5_crc_invariant :
    (∀ (t : ChunkType) (d : List Nat),
        (Chunk.new t d).m_crc =
          calculateCrc ((Chunk.new t d).m_type.bytes ++ (Chunk.new t d).m_chunk_data)
        ∧ (Chunk.new t d).m_length = d.length % 4294967296)
    ∧ (∀ (v : List Nat) (c : Chunk), Chunk.tryFrom v = .ok c →
        c.m_crc = calculateCrc (c.m_type.bytes ++ c.m_chunk_data)) := by
  constructor
  · exact fun t d => ⟨rfl, rfl⟩
  · intro v c hok
    by_cases hguard : v.length < 12
    · unfold Chunk.tryFrom at hok
      rw [if_pos (by simpa [Chunk.MIN_CHUNK_LENGTH] using hguard)] at hok
      exact absurd hok (by simp)
    · rw [Chunk.tryFrom_of_ge v hguard] at hok
      simp only at hok
      rw [Chunk.dataRegion_eq v hguard, Chunk.crcRegion_length v hguard] at hok
      rw [if_neg (by omega : ¬ (4 : Nat) ≠ 4)] at hok
      split at hok
      · exact absurd hok (by simp)
      · rw [Except.ok.injEq] at hok
        rw [← hok]

set_option maxRecDepth 100000 in
/-- C5 witness: the parse-path invariant at a concrete 12-byte input with
the correct CRC of the tag `"RuSt"` over empty data. -/
theorem c5_crc_invariant_witness :
    (⟨0, ⟨82, 117, 83, 116⟩, [], 3565422908⟩ : Chunk).m_crc =
      calculateCrc ((⟨0, ⟨82, 117, 83, 116⟩, [], 3565422908⟩ : Chunk).m_type.bytes ++
        (⟨0, ⟨82, 117, 83, 116⟩, [], 3565422908⟩ : Chunk).m_chunk_data) :=
  c5_crc_invariant.2 ([0, 0, 0, 0] ++ [82, 117, 83, 116] ++ toBeBytes32 3565422908)
    ⟨0, ⟨82, 117, 83, 116⟩, [], 3565422908⟩ (by decide)

/-- Bit 5 of a byte, expressed through the land with 32 that the source's
bit query computes. -/
theorem and32_eq_zero_iff (n : Nat) : (n &&& 32 = 0) ↔ Nat.testBit n 5 = false := by
  have h := Nat.and_two_pow n 5
  norm_num at h
  rw [h]
  cases hb : Nat.testBit n 5 <;> simp

/-- The reserved-bit query of the source is the complement of bit 5 of the
third tag byte. -/
theorem isReservedBitValid_iff (t : ChunkType) :
    t.isReservedBitValid = true ↔ Nat.testBit t.b2 5 = false := by
  unfold ChunkType.isReservedBitValid ChunkType.getBitAt
  rw [if_pos (by omega : (5 : Nat) < 8)]
  simp only [Except.toOption, Option.get!]
  have h32 : (1 <<< 5 : Nat) = 32 := rfl
  rw [h32, ← and32_eq_zero_iff]
  cases hz : decide (t.b2 &&& 32 = 0) <;> simp_all

/-- C6: `ChunkType::from_str` succeeds exactly on 4-byte all-ASCII-alphabetic
strings (here given by their UTF-8 bytes), fails with one of the two
invalid-format errors otherwise, and on success stores the string's bytes
verbatim. -/
theorem c6_from_string (s : List Nat) :
    ((∃ t, ChunkType.fromStr s = .ok t) ↔
       (s.length = 4 ∧ ∀ b ∈ s, ChunkType.isAsciiAlphabetic b = true))
    ∧ (∀ e, ChunkType.fromStr s = .error e →
        e = .typeWrongLength ∨ e = .typeNotAlphabetic)
    ∧ (∀ t, ChunkType.fromStr s = .ok t → t.bytes = s) := by
  unfold ChunkType.fromStr
  by_cases hlen : s.length = 4
  · rw [if_neg (by omega : ¬ s.length ≠ 4)]
    simp only [ChunkType.bytes]
    simp only [← list_eq_four hlen]
    by_cases halpha : s.all ChunkType.isAsciiAlphabetic
    · rw [if_pos halpha]
      refine ⟨?_, ?_, ?_⟩
      · exact ⟨fun _ => ⟨hlen, List.all_eq_true.mp halpha⟩, fun _ => ⟨_, rfl⟩⟩
      · intro e he
        exact absurd he (by simp)
      · intro t ht
        rw [Except.ok.injEq] at ht
        rw [← ht]
        show [s.getD 0 0, s.getD 1 0, s.getD 2 0, s.getD 3 0] = s
        exact (list_eq_four hlen).symm
    · rw [if_neg halpha]
      refine ⟨?_, ?_, ?_⟩
      · constructor
        · rintro ⟨t, ht⟩
          exact absurd ht (by simp)
        · rintro ⟨_, hall⟩
          exact absurd (List.all_eq_true.mpr hall) halpha
      · intro e he
        rw [Except.error.injEq] at he
        exact Or.inr he.symm
      · intro t ht
        exact absurd ht (by simp)
  · rw [if_pos hlen]
    refine ⟨?_, ?_, ?_⟩
    · constructor
      · rintro ⟨t, ht⟩
        exact absurd ht (by simp)
      · rintro ⟨h4, _⟩
        exact absurd h4 hlen
    · intro e he
      rw [Except.error.injEq] at he
      exact Or.inl he.symm
    · intro t ht
      exact absurd ht (by simp)

/-- C6 witness: the characterization at the concrete tag bytes of
`"RuSt"`. -/
theorem c6_from_string_witness :
    ((∃ t, ChunkType.fromStr [82, 117, 83, 116] = .ok t) ↔
       (([82, 117, 83, 116] : List Nat).length = 4
        ∧ ∀ b ∈ ([82, 117, 83, 116] : List Nat), ChunkType.isAsciiAlphabetic b = true))
    ∧ (∀ e, ChunkType.fromStr [82, 117, 83, 116] = .error e →
        e = .typeWrongLength ∨ e = .typeNotAlphabetic)
    ∧ (∀ t, ChunkType.fromStr [82, 117, 83, 116] = .ok t →
        t.bytes = [82, 117, 83, 116]) :=
  c6_from_string [82, 117, 83, 116]

/-- C7: `is_valid` holds exactly when all four tag bytes are ASCII
alphabetic and bit 5 of the third byte is clear; concretely, `"RuSt"`
parses and is valid while `"Rust"` parses (via `from_str`) but reports
`is_valid() = false`. -/
theorem c7_is_valid :
    (∀ t : ChunkType, t.isValid = true ↔
        ((∀ b ∈ t.bytes, ChunkType.isAsciiAlphabetic b = true)
         ∧ Nat.testBit t.b2 5 = false))
    ∧ (ChunkType.fromStr [82, 117, 83, 116] = .ok ⟨82, 117, 83, 116⟩
       ∧ ChunkType.isValid ⟨82, 117, 83, 116⟩ = true)
    ∧ (ChunkType.fromStr [82, 117, 115, 116] = .ok ⟨82, 117, 115, 116⟩
       ∧ ChunkType.isValid ⟨82, 117, 115, 116⟩ = false) := by
  refine ⟨?_, by constructor <;> decide, by constructor <;> decide⟩
  intro t
  unfold ChunkType.isValid
  rw [Bool.and_eq_true, List.all_eq_true, isReservedBitValid_iff]

/-- C7 witness: the validity characterization applied at the concrete tag
`"ruSt"`. -/
theorem c7_is_valid_witness :
    ChunkType.isValid ⟨114, 117, 83, 116⟩ = true ↔
      ((∀ b ∈ (⟨114, 117, 83, 116⟩ : ChunkType).bytes,
          ChunkType.isAsciiAlphabetic b = true)
       ∧ Nat.testBit (⟨114, 117, 83, 116⟩ : ChunkType).b2 5 = false) :=
  c7_is_valid.1 ⟨114, 117, 83, 116⟩

/-- A buffer of plain ASCII bytes is valid UTF-8 and decodes to itself. -/
theorem utf8Decode_ascii (l : List Nat) (h : ∀ b ∈ l, b ≤ 127) :
    utf8Decode l = some l := by
  induction l with
  | nil => rw [utf8Decode]
  | cons x xs ih =>
    have hx : x ≤ 127 := h x (by simp)
    have hxs := ih fun b hb => h b (by simp [hb])
    have hstep : utf8Step x xs = some (x, xs) := by
      unfold utf8Step
      rw [if_pos hx]
    rw [utf8Decode]
    split
    · rename_i heq
      rw [hstep] at heq
      exact absurd heq (by simp)
    · rename_i cp rest2 heq
      rw [hstep, Option.some.injEq, Prod.mk.injEq] at heq
      obtain ⟨h1, h2⟩ := heq
      subst h1
      subst h2
      rw [hxs]
      rfl

set_option maxRecDepth 100000 in
/-- C8: parsing the concrete byte vector `length 42 (BE) ++ "RuSt" ++
message ++ crc 2882656334 (BE)` succeeds, and `data_as_string` on the
resulting chunk returns the message verbatim. -/
theorem c8_concrete_vector :
    Chunk.tryFrom
        ([0, 0, 0, 42] ++ [82, 117, 83, 116] ++ secretMessageBytes ++ toBeBytes32 2882656334) =
      .ok ⟨42, ⟨82, 117, 83, 116⟩, secretMessageBytes, 2882656334⟩
    ∧ (⟨42, ⟨82, 117, 83, 116⟩, secretMessageBytes, 2882656334⟩ : Chunk).dataAsString =
      .ok "This is where your secret message will be!" := by
  constructor
  · simp [Chunk.tryFrom, Chunk.MIN_CHUNK_LENGTH, fromBeBytes, toBeBytes32, calculateCrc,
      crc32UpdateByte, crc32Step, Nat.iterate, ChunkType.bytes, secretMessageBytes,
      secretMessage]
  · have hdec : utf8Decode secretMessageBytes = some secretMessageBytes :=
      utf8Decode_ascii secretMessageBytes (by decide)
    simp only [Chunk.dataAsString, hdec]
    decide

end PngChunk
